import Mathlib

/-!
# Verification of the poker table engine (`src/lib.rs`)

Shallow embedding of the table/round state machine and betting-settlement
engine of the `poker_game` program.  Pubkeys are modelled as `Nat`, with `0`
playing the role of `Pubkey::default()` (the empty-slot sentinel).  All chip
amounts are `u64` in the source; we model them as `Nat` and make every
`checked_add` / `checked_sub` / division explicit, with `ActErr.fault`
standing for a Rust panic (a failed `.unwrap()`, an index out of bounds,
a division by zero, or a non-terminating loop aborted by the runtime).
An instruction that returns `.error _` commits no state change (Solana
transactions roll back entirely on failure), which is why the operations
are total functions returning `Except`.
-/

/-- `u64::MAX`. -/
def u64Max : Nat := 2 ^ 64 - 1

/-- `a.checked_add(b)` on `u64`: `none` models an overflowing add (panic on `.unwrap()`). -/
def chk_add (a b : Nat) : Option Nat :=
  if a + b ≤ u64Max then some (a + b) else none

/-- `a.checked_sub(b)` on `u64`: `none` models an underflowing sub (panic on `.unwrap()`). -/
def chk_sub (a b : Nat) : Option Nat :=
  if b ≤ a then some (a - b) else none

/-- `TableStatus` from the source. -/
inductive TableStatus
  | Waiting
  | Playing
  | Finished
deriving DecidableEq, Repr

/-- `Round` from the source. -/
inductive Round
  | NotStarted
  | PreFlop
  | Flop
  | Turn
  | River
  | Showdown
deriving DecidableEq, Repr

/-- `PlayerState` account from the source (the `player`/`table` keys are `Nat`-coded;
the `bump` field is Solana plumbing and carries no game logic). -/
structure PlayerState where
  player : Nat
  chips : Nat
  is_active : Bool
  is_folded : Bool
  is_all_in : Bool
  current_bet : Nat
  cards : Nat × Nat
deriving DecidableEq, Repr

/-- `Table` account from the source.  `players` has fixed length `max_players`
with `0` as the empty-slot sentinel.  `table_id`, `is_private` and `bump` carry
no gameplay logic and are omitted. -/
structure Table where
  host : Nat
  buy_in : Nat
  small_blind : Nat
  big_blind : Nat
  max_players : Nat
  status : TableStatus
  pot : Nat
  players : List Nat
  player_count : Nat
  current_player_index : Nat
  dealer_index : Nat
  round : Round
  highest_bet : Nat
  community_cards : List Nat
deriving DecidableEq, Repr

/-- The `ErrorCode` variants reachable from the embedded instructions. -/
inductive ErrorCode
  | GameNotInProgress
  | PlayerFolded
  | PlayerNotActive
  | NotPlayerTurn
  | InsufficientChips
  | BetTooSmall
  | CannotCheck
  | NotShowdownRound
  | GameNotFinished
  | NotTableHost
deriving DecidableEq, Repr

/-- Outcome of a failed instruction: either an Anchor `ErrorCode` rejection, or
`fault` for a Rust panic / aborted computation (`unwrap` on `None`, index out of
bounds, division by zero, or a loop that never terminates). -/
inductive ActErr
  | code : ErrorCode → ActErr
  | fault
deriving DecidableEq, Repr

/-- The bundled mutable state of one table instance: the `Table` account plus the
`player_states` account array, index-aligned with `table.players` (the alignment
the source code assumes when it indexes `ctx.accounts.player_states[i]`). -/
structure GameState where
  table : Table
  seats : List PlayerState
deriving DecidableEq, Repr

deriving instance DecidableEq for Except

/-- Sum of all seats' chip balances. -/
def sumChips (l : List PlayerState) : Nat :=
  (l.map (fun s => s.chips)).sum

/-- The inner loop of `advance_to_next_player` (source lines 527–541), with
explicit fuel: each step computes `(cur + 1) % m` where `m = player_count`,
stops when it wraps back to the start index, otherwise reads
`players[cur]` (`none` = index-out-of-bounds panic) and stops on a non-empty
slot.  Exhausted fuel models the loop running forever (the enclosing runtime
aborts the transaction); fuel `m + 1` is enough for every terminating run. -/
def advanceLoop (players : List Nat) (m start : Nat) : Nat → Nat → Option Nat
  | 0, _ => none
  | fuel + 1, cur =>
    let c := (cur + 1) % m
    if c = start then some c
    else
      match players[c]? with
      | none => none
      | some p => if p ≠ 0 then some c else advanceLoop players m start fuel c

/-- `advance_to_next_player` from the source.  Note the modulus is
`table.player_count`, the live occupant count — not the seat-array length.
A zero `player_count` makes the source's `% player_count` panic. -/
def advance_to_next_player (t : Table) : Option Table :=
  if t.player_count = 0 then none
  else
    (advanceLoop t.players t.player_count t.current_player_index
      (t.player_count + 1) t.current_player_index).map
      (fun c => { t with current_player_index := c })

/-- The round sequence advance in `check_round_completion`
(PreFlop→Flop→Turn→River→Showdown, no-op otherwise). -/
def nextRound : Round → Round
  | .PreFlop => .Flop
  | .Flop => .Turn
  | .Turn => .River
  | .River => .Showdown
  | r => r

/-- A slot that the completion test must examine: occupied, active, not folded,
not all-in (source lines 552–559). -/
def eligB (pr : Nat × PlayerState) : Bool :=
  pr.1 != 0 && pr.2.is_active && !pr.2.is_folded && !pr.2.is_all_in

/-- The completion test of `check_round_completion` (source lines 551–566):
the round is complete when no examined seat has `current_bet < highest_bet`. -/
def roundComplete (t : Table) (seats : List PlayerState) : Bool :=
  (t.players.zip seats).all (fun pr => !eligB pr || t.highest_bet ≤ pr.2.current_bet)

/-- `check_round_completion` from the source (lines 547–602).  On completion it
zeroes every seat's `current_bet`, zeroes `highest_bet`, advances the round one
step and sets `current_player_index := (dealer_index + 1) % player_count` —
with no occupancy scan.  `none` models the `% 0` panic. -/
def check_round_completion (t : Table) (seats : List PlayerState) :
    Option (Table × List PlayerState) :=
  if roundComplete t seats then
    if t.player_count = 0 then none
    else
      some
        ({ t with
            highest_bet := 0
            round := nextRound t.round
            current_player_index := (t.dealer_index + 1) % t.player_count },
          seats.map (fun s => { s with current_bet := 0 }))
  else some (t, seats)

/-- The common tail of `bet` / `check` / `call` and the non-shortcut `fold`
path: advance the turn pointer, then run round-completion detection. -/
def postAction (t : Table) (seats : List PlayerState) :
    Except ActErr (Table × List PlayerState) :=
  match advance_to_next_player t with
  | none => .error .fault
  | some t2 =>
    match check_round_completion t2 seats with
    | none => .error .fault
    | some r => .ok r

/-- `count_active_players` from the source (lines 605–621): occupied slots whose
seat is active and not folded. -/
def count_active_players (players : List Nat) (seats : List PlayerState) : Nat :=
  (players.zip seats).countP (fun pr => pr.1 != 0 && !pr.2.is_folded && pr.2.is_active)

/-- The winner-search loop of the fold shortcut (source lines 351–356): credit
the pot to the first seat in `player_states` order with
`is_active && !is_folded` (note: no occupancy test here, unlike
`count_active_players`).  `none` models an overflowing `checked_add`. -/
def awardFirst (pot : Nat) : List PlayerState → Option (List PlayerState)
  | [] => some []
  | s :: rest =>
    if s.is_active && !s.is_folded then
      match chk_add s.chips pot with
      | none => none
      | some c => some ({ s with chips := c } :: rest)
    else (awardFirst pot rest).map (fun r => s :: r)

/-- The shared entry validations of `bet` / `check` / `call` / `fold`
(source lines 219–225 etc.): the actor's own `player_state` account is the
seat at `idx` (Anchor's PDA seeds force `seat.player = actor`; a missing or
mismatched account is an Anchor-level fault), then status / folded / active /
turn checks in source order.  Returns the validated seat. -/
def actionGate (actor idx : Nat) (t : Table) (seats : List PlayerState) :
    Except ActErr PlayerState :=
  match seats[idx]? with
  | none => .error .fault
  | some s =>
    if s.player ≠ actor then .error .fault
    else if t.status ≠ TableStatus.Playing then .error (.code .GameNotInProgress)
    else if s.is_folded then .error (.code .PlayerFolded)
    else if ¬ s.is_active then .error (.code .PlayerNotActive)
    else
      match t.players[t.current_player_index]? with
      | none => .error .fault
      | some cp => if cp ≠ actor then .error (.code .NotPlayerTurn) else .ok s

/-- The mutation step of `bet` (source lines 242–249) followed by the common
tail: debit the delta, set the seat's bet, credit the pot, raise `highest_bet`
if the amount exceeds it. -/
def betApply (idx amount delta : Nat) (s : PlayerState) (t : Table)
    (seats : List PlayerState) : Except ActErr (Table × List PlayerState) :=
  match chk_add t.pot delta with
  | none => .error .fault
  | some newPot =>
    postAction
      { t with
          pot := newPot
          highest_bet := if t.highest_bet < amount then amount else t.highest_bet }
      (seats.set idx { s with chips := s.chips - delta, current_bet := amount })

/-- `bet` from the source (lines 214–258). -/
def bet (actor idx amount : Nat) (t : Table) (seats : List PlayerState) :
    Except ActErr (Table × List PlayerState) :=
  match actionGate actor idx t seats with
  | .error e => .error e
  | .ok s =>
    match chk_sub amount s.current_bet with
    | none => .error .fault
    | some delta =>
      if s.chips < delta then .error (.code .InsufficientChips)
      else if t.highest_bet < amount then
        match chk_add t.highest_bet t.big_blind with
        | none => .error .fault
        | some minRaise =>
          if amount < minRaise then .error (.code .BetTooSmall)
          else betApply idx amount delta s t seats
      else if amount ≠ t.highest_bet then .error (.code .BetTooSmall)
      else betApply idx amount delta s t seats

/-- `check` from the source (lines 261–284). -/
def check (actor idx : Nat) (t : Table) (seats : List PlayerState) :
    Except ActErr (Table × List PlayerState) :=
  match actionGate actor idx t seats with
  | .error e => .error e
  | .ok s =>
    if t.highest_bet = 0 ∨ s.current_bet = t.highest_bet then postAction t seats
    else .error (.code .CannotCheck)

/-- `call` from the source (lines 287–325). -/
def call (actor idx : Nat) (t : Table) (seats : List PlayerState) :
    Except ActErr (Table × List PlayerState) :=
  match actionGate actor idx t seats with
  | .error e => .error e
  | .ok s =>
    match chk_sub t.highest_bet s.current_bet with
    | none => .error .fault
    | some callAmount =>
      let actualCall := min callAmount s.chips
      match chk_add s.current_bet actualCall with
      | none => .error .fault
      | some newCb =>
        match chk_add t.pot actualCall with
        | none => .error .fault
        | some newPot =>
          postAction { t with pot := newPot }
            (seats.set idx
              { s with
                  chips := s.chips - actualCall
                  current_bet := newCb
                  is_all_in := if actualCall < callAmount then true else s.is_all_in })

/-- `fold` from the source (lines 328–367): mark the seat folded, advance the
turn pointer, and if exactly one occupied active non-folded seat remains, award
it the entire pot and finish the game (the pot field itself is not zeroed);
otherwise run round-completion detection. -/
def fold (actor idx : Nat) (t : Table) (seats : List PlayerState) :
    Except ActErr (Table × List PlayerState) :=
  match actionGate actor idx t seats with
  | .error e => .error e
  | .ok s =>
    let seats1 := seats.set idx { s with is_folded := true }
    match advance_to_next_player t with
    | none => .error .fault
    | some t1 =>
      if count_active_players t1.players seats1 = 1 then
        match awardFirst t1.pot seats1 with
        | none => .error .fault
        | some seats2 => .ok ({ t1 with status := TableStatus.Finished }, seats2)
      else
        match check_round_completion t1 seats1 with
        | none => .error .fault
        | some r => .ok r

/-- `evaluate_poker_hand` from the source (lines 640–644): a constant
placeholder. -/
def evaluate_poker_hand (_cards : List Nat) : Nat := 42

/-- The winner-collection loop of `showdown` (source lines 378–409), run over
the enumerated, index-aligned `(players[i], player_states[i])` pairs: skip
empty, folded and inactive slots; track the best hand value (starting from 0)
and the seat indices achieving it, ties appended in scan order. -/
def winnersStep (community : List Nat) (acc : Nat × List Nat)
    (x : Nat × (Nat × PlayerState)) : Nat × List Nat :=
  if x.2.1 = 0 then acc
  else if x.2.2.is_folded || !x.2.2.is_active then acc
  else
    let hv := evaluate_poker_hand (x.2.2.cards.1 :: x.2.2.cards.2 :: community)
    if acc.1 < hv then (hv, [x.1])
    else if hv = acc.1 then (acc.1, acc.2 ++ [x.1])
    else acc

def collectWinners (community : List Nat) (ps : List (Nat × PlayerState)) :
    Nat × List Nat :=
  ps.enum.foldl (winnersStep community) (0, [])

/-- Credit `amt` chips to each listed seat index in order (the distribution
loop of `showdown`, lines 413–416).  `none` models an index-out-of-bounds or
overflow panic. -/
def addToSeats (amt : Nat) : List Nat → List PlayerState → Option (List PlayerState)
  | [], seats => some seats
  | i :: rest, seats =>
    match seats[i]? with
    | none => none
    | some s =>
      match chk_add s.chips amt with
      | none => none
      | some c => addToSeats amt rest (seats.set i { s with chips := c })

/-- `showdown` from the source (lines 370–429).  With an empty winner set the
source evaluates `table.pot / winners.len()`, a division by zero: there is no
defensive guard, so that path is the panic outcome `.fault`, reached before
any state is written.  Otherwise each winner is credited `pot / winnerCount`
and the remainder `pot % winnerCount` goes to `winners[0]`; the table is
marked `Finished` (its `pot` field is left untouched). -/
def showdown (t : Table) (seats : List PlayerState) :
    Except ActErr (Table × List PlayerState) :=
  if t.status ≠ TableStatus.Playing then .error (.code .GameNotInProgress)
  else if t.round ≠ Round.Showdown then .error (.code .NotShowdownRound)
  else
    let winners := (collectWinners t.community_cards (t.players.zip seats)).2
    if winners.length = 0 then .error .fault
    else
      let share := t.pot / winners.length
      match addToSeats share winners seats with
      | none => .error .fault
      | some seats1 =>
        let remainder := t.pot % winners.length
        if remainder > 0 then
          match winners.head? with
          | none => .error .fault
          | some w0 =>
            match seats1[w0]? with
            | none => .error .fault
            | some sw =>
              match chk_add sw.chips remainder with
              | none => .error .fault
              | some c =>
                .ok ({ t with status := TableStatus.Finished },
                  seats1.set w0 { sw with chips := c })
        else .ok ({ t with status := TableStatus.Finished }, seats1)

/-- `reset_table` from the source (lines 432–455). -/
def reset_table (caller : Nat) (t : Table) (seats : List PlayerState) :
    Except ActErr (Table × List PlayerState) :=
  if t.status ≠ TableStatus.Finished then .error (.code .GameNotFinished)
  else if caller ≠ t.host then .error (.code .NotTableHost)
  else
    .ok
      ({ t with
          status := TableStatus.Waiting
          pot := 0
          round := Round.NotStarted
          highest_bet := 0 },
        seats.map (fun s =>
          if s.is_active then
            { s with is_folded := false, current_bet := 0, is_all_in := false }
          else s))

/-- The gameplay action verbs, tagged with the acting identity and the index of
its seat account. -/
inductive GameAction
  | bet (actor idx amount : Nat)
  | check (actor idx : Nat)
  | call (actor idx : Nat)
  | fold (actor idx : Nat)
  | showdown
deriving DecidableEq, Repr

/-- Dispatch one gameplay action against a table state. -/
def applyAction (g : GameState) : GameAction → Except ActErr GameState
  | .bet actor idx amount =>
    (bet actor idx amount g.table g.seats).map (fun r => ⟨r.1, r.2⟩)
  | .check actor idx =>
    (check actor idx g.table g.seats).map (fun r => ⟨r.1, r.2⟩)
  | .call actor idx =>
    (call actor idx g.table g.seats).map (fun r => ⟨r.1, r.2⟩)
  | .fold actor idx =>
    (fold actor idx g.table g.seats).map (fun r => ⟨r.1, r.2⟩)
  | .showdown =>
    (showdown g.table g.seats).map (fun r => ⟨r.1, r.2⟩)

/-- The linear congruential step of `generate_shuffled_deck` (source line 631):
`wrapping_mul` / `wrapping_add` work modulo `2 ^ 64`, and the source then
reduces the result `% u64::MAX`, i.e. modulo `2 ^ 64 - 1`. -/
def lcg (rng : Nat) : Nat :=
  (rng * 6364136223846793005 + 1442695040888963407) % 2 ^ 64 % (2 ^ 64 - 1)

/-- The Fisher–Yates loop of `generate_shuffled_deck` (source lines 628–634),
with the 52-slot deck array modelled as a function `Fin 52 → Fin 52`
(`deck.swap(i, j)` is exactly composition with the transposition of `i` and
`j`: the new array reads `old[j]` at `i`, `old[i]` at `j`, and is unchanged
elsewhere).  The argument `n` is the Rust loop variable `i`, counting
`51, 50, …, 1`. -/
def fyAux : Nat → Nat → (Fin 52 → Fin 52) → Fin 52 → Fin 52
  | 0, _, f => f
  | n + 1, rng, f =>
    let rng2 := lcg rng
    if h : n + 1 < 52 then
      fyAux n rng2
        (f ∘ Equiv.swap ⟨n + 1, h⟩
          ⟨rng2 % (n + 2), lt_of_lt_of_le (Nat.mod_lt _ (by omega)) (by omega)⟩)
    else fyAux n rng2 f

/-- `generate_shuffled_deck` from the source (lines 624–637): start from the
identity deck `0, 1, …, 51` and apply the seeded Fisher–Yates swaps for
`i = 51` down to `1`. -/
def generate_shuffled_deck (seed : Nat) : List Nat :=
  List.ofFn (fun k : Fin 52 => (fyAux 51 seed id k : Nat))

/-- The scan that the TurnScheduler section of the spec describes, as a pure
function of the modulus `m`: from `start`, look at positions
`(start + 1) % m, (start + 2) % m, …, (start + m) % m` in order and stop at
the first that either wraps back to `start` (full revolution: index unchanged)
or holds a non-empty seat.  With `m = player_count` this is what the code's
loop computes (proved below); with `m = players.length` it is the full
seat-array-length scan that claim C3 asserts. -/
def stopPred (players : List Nat) (start idx : Nat) : Bool :=
  idx == start || players.getD idx 0 != 0

/-- The first position of the circular scan at which `stopPred` holds (the
scan visits `(start + 1) % m, …, (start + m) % m`; the last visited position
is `start` itself, at which `stopPred` always holds). -/
def firstStop (players : List Nat) (m start : Nat) : Nat :=
  match ((List.range m).map (fun d => (start + 1 + d) % m)).find?
      (stopPred players start) with
  | some idx => idx
  | none => start

/-- Modelled from the claim's words (C3): the turn scan with circularity
computed against the full fixed seat-array length. -/
def advanceSpecFullLen (players : List Nat) (start : Nat) : Nat :=
  firstStop players players.length start

/-! ## Helper lemmas -/

theorem chk_add_some {a b c : Nat} (h : chk_add a b = some c) :
    c = a + b ∧ a + b ≤ u64Max := by
  unfold chk_add at h
  split at h
  · exact ⟨(Option.some_injective _ h).symm, by assumption⟩
  · exact absurd h (by simp)

theorem chk_add_of_le {a b : Nat} (h : a + b ≤ u64Max) : chk_add a b = some (a + b) := by
  unfold chk_add
  simp [h]

theorem chk_sub_some {a b c : Nat} (h : chk_sub a b = some c) :
    c = a - b ∧ b ≤ a := by
  unfold chk_sub at h
  split at h
  · exact ⟨(Option.some_injective _ h).symm, by assumption⟩
  · exact absurd h (by simp)

theorem chk_sub_of_le {a b : Nat} (h : b ≤ a) : chk_sub a b = some (a - b) := by
  unfold chk_sub
  simp [h]

theorem sumChips_set {l : List PlayerState} {i : Nat} {s₀ : PlayerState}
    (x : PlayerState) (h : l[i]? = some s₀) :
    sumChips (l.set i x) + s₀.chips = sumChips l + x.chips := by
  induction l generalizing i with
  | nil => simp at h
  | cons a as ih =>
    cases i with
    | zero =>
      simp only [List.getElem?_cons_zero, Option.some_inj] at h
      subst h
      simp [sumChips]
      omega
    | succ n =>
      simp only [List.getElem?_cons_succ] at h
      have := ih h
      simp [sumChips, List.set] at this ⊢
      omega

theorem sumChips_map_bet_zero (l : List PlayerState) :
    sumChips (l.map (fun s => { s with current_bet := 0 })) = sumChips l := by
  induction l with
  | nil => rfl
  | cons a as ih => simp [sumChips, List.map] at ih ⊢; omega

/-- Every successful run of `advance_to_next_player` only rewrites
`current_player_index`. -/
theorem advance_shape {t t' : Table} (h : advance_to_next_player t = some t') :
    ∃ c, t' = { t with current_player_index := c } := by
  unfold advance_to_next_player at h
  split at h
  · exact absurd h (by simp)
  · rw [Option.map_eq_some'] at h
    obtain ⟨c, _, hc⟩ := h
    exact ⟨c, hc.symm⟩

/-- Every successful run of `check_round_completion` leaves `status`, `pot`,
`players`, `player_count` and every seat's chips unchanged. -/
theorem crc_preserves {t : Table} {seats : List PlayerState}
    {t' : Table} {seats' : List PlayerState}
    (h : check_round_completion t seats = some (t', seats')) :
    t'.status = t.status ∧ t'.pot = t.pot ∧ t'.players = t.players ∧
      t'.player_count = t.player_count ∧ sumChips seats' = sumChips seats := by
  unfold check_round_completion at h
  split at h
  · split at h
    · exact absurd h (by simp)
    · simp only [Option.some_inj, Prod.mk.injEq] at h
      obtain ⟨h1, h2⟩ := h
      subst h1
      subst h2
      exact ⟨rfl, rfl, rfl, rfl, sumChips_map_bet_zero seats⟩
  · simp only [Option.some_inj, Prod.mk.injEq] at h
    obtain ⟨h1, h2⟩ := h
    subst h1
    subst h2
    exact ⟨rfl, rfl, rfl, rfl, rfl⟩

/-- `postAction` (turn advance + round-completion detection) leaves `status`,
`pot` and the chip total unchanged. -/
theorem postAction_preserves {t : Table} {seats : List PlayerState}
    {t' : Table} {seats' : List PlayerState}
    (h : postAction t seats = .ok (t', seats')) :
    t'.status = t.status ∧ t'.pot = t.pot ∧ sumChips seats' = sumChips seats := by
  unfold postAction at h
  split at h
  · exact absurd h (by simp)
  · rename_i t2 ha
    split at h
    · exact absurd h (by simp)
    · rename_i r hc
      simp only [Except.ok.injEq] at h
      obtain ⟨c, hshape⟩ := advance_shape ha
      subst hshape
      cases r with
      | mk rt rs =>
        cases h
        have := crc_preserves hc
        exact ⟨this.1, this.2.1, this.2.2.2.2⟩

/-- Unfolding a successful `actionGate`: all entry validations passed. -/
theorem actionGate_ok {actor idx : Nat} {t : Table} {seats : List PlayerState}
    {s : PlayerState} (h : actionGate actor idx t seats = .ok s) :
    seats[idx]? = some s ∧ s.player = actor ∧ t.status = TableStatus.Playing ∧
      s.is_folded = false ∧ s.is_active = true ∧
      t.players[t.current_player_index]? = some actor := by
  unfold actionGate at h
  split at h
  · exact absurd h (by simp)
  rename_i s0 hs0
  split at h
  · exact absurd h (by simp)
  rename_i hpl
  split at h
  · exact absurd h (by simp)
  rename_i hst
  split at h
  · exact absurd h (by simp)
  rename_i hf
  split at h
  · exact absurd h (by simp)
  rename_i ha
  split at h
  · exact absurd h (by simp)
  rename_i cp hcp
  split at h
  · exact absurd h (by simp)
  rename_i hturn
  simp only [Except.ok.injEq] at h
  subst h
  refine ⟨hs0, not_ne_iff.mp hpl, not_ne_iff.mp hst, by simpa using hf, not_not.mp ha, ?_⟩
  rw [hcp, not_ne_iff.mp hturn]

/-- When the table and acting seat are fully valid, `actionGate` succeeds. -/
theorem actionGate_of_valid {actor idx : Nat} {t : Table} {seats : List PlayerState}
    {s : PlayerState} (hseat : seats[idx]? = some s) (hpl : s.player = actor)
    (hst : t.status = TableStatus.Playing) (hf : s.is_folded = false)
    (ha : s.is_active = true)
    (hturn : t.players[t.current_player_index]? = some actor) :
    actionGate actor idx t seats = .ok s := by
  unfold actionGate
  rw [hseat, hturn]
  simp [hpl, hst, hf, ha]

/-- When any of the claim C8 preconditions is violated, `actionGate` rejects. -/
theorem actionGate_err {actor idx : Nat} {t : Table} {seats : List PlayerState}
    {s : PlayerState} (hseat : seats[idx]? = some s)
    (hviol : t.players[t.current_player_index]? ≠ some actor ∨
      t.status ≠ TableStatus.Playing ∨ s.is_folded = true ∨ s.is_active = false) :
    ∃ e, actionGate actor idx t seats = .error e := by
  cases hok : actionGate actor idx t seats with
  | error e => exact ⟨e, rfl⟩
  | ok s' =>
    obtain ⟨hs', hpl', hst', hf', ha', hturn'⟩ := actionGate_ok hok
    rw [hseat] at hs'
    cases hs'
    rcases hviol with h | h | h | h
    · exact absurd hturn' h
    · exact absurd hst' h
    · rw [h] at hf'; cases hf'
    · rw [h] at ha'; cases ha'

/-! ## Claim C8 — turn integrity and atomicity -/

/-- C8: for each of `bet`, `check`, `call`, `fold`, if the acting identity is
not the one at `players[current_player_index]`, or the table is not `Playing`,
or the acting seat is folded or inactive, the action is rejected.  In this
embedding a rejected action returns `.error _` and produces no successor
state at all — the Solana runtime rolls the transaction back, so the table and
every seat are left exactly unchanged; all validations in the source run
before any mutation. -/
theorem claim_C8_turn_integrity (t : Table) (seats : List PlayerState)
    (actor idx amount : Nat) (s : PlayerState)
    (hseat : seats[idx]? = some s)
    (hviol : t.players[t.current_player_index]? ≠ some actor ∨
      t.status ≠ TableStatus.Playing ∨ s.is_folded = true ∨ s.is_active = false) :
    (∃ e, bet actor idx amount t seats = .error e) ∧
    (∃ e, check actor idx t seats = .error e) ∧
    (∃ e, call actor idx t seats = .error e) ∧
    (∃ e, fold actor idx t seats = .error e) := by
  obtain ⟨e, hg⟩ := actionGate_err hseat hviol
  refine ⟨⟨e, ?_⟩, ⟨e, ?_⟩, ⟨e, ?_⟩, ⟨e, ?_⟩⟩
  · unfold bet; rw [hg]
  · unfold check; rw [hg]
  · unfold call; rw [hg]
  · unfold fold; rw [hg]

/-- Witness for C8: a concrete out-of-turn `bet`/`check`/`call`/`fold` are all
rejected (seat 2 acts while the turn pointer addresses seat 0). -/
theorem claim_C8_witness :
    let t : Table :=
      { host := 1, buy_in := 100, small_blind := 5, big_blind := 10,
        max_players := 2, status := TableStatus.Playing, pot := 15,
        players := [1, 2], player_count := 2, current_player_index := 0,
        dealer_index := 0, round := Round.PreFlop, highest_bet := 10,
        community_cards := [0, 0, 0, 0, 0] }
    let s2 : PlayerState :=
      { player := 2, chips := 90, is_active := true, is_folded := false,
        is_all_in := false, current_bet := 10, cards := (0, 0) }
    let s1 : PlayerState :=
      { player := 1, chips := 95, is_active := true, is_folded := false,
        is_all_in := false, current_bet := 5, cards := (0, 0) }
    (∃ e, bet 2 1 20 t [s1, s2] = .error e) ∧
    (∃ e, check 2 1 t [s1, s2] = .error e) ∧
    (∃ e, call 2 1 t [s1, s2] = .error e) ∧
    (∃ e, fold 2 1 t [s1, s2] = .error e) := by
  intro t s2 s1
  exact claim_C8_turn_integrity t [s1, s2] 2 1 20 s2 (by rfl) (by simp)

/-- A pair the showdown winner loop does not skip: occupied, not folded,
active. -/
def sdEligPair (x : Nat × (Nat × PlayerState)) : Bool :=
  x.2.1 != 0 && !x.2.2.is_folded && x.2.2.is_active

theorem winnersStep_42 (community : List Nat) (l : List Nat)
    (x : Nat × (Nat × PlayerState)) :
    winnersStep community (42, l) x =
      (42, l ++ if sdEligPair x then [x.1] else []) := by
  rcases x with ⟨i, p, s⟩
  unfold winnersStep sdEligPair evaluate_poker_hand
  by_cases h1 : p = 0
  · simp [h1]
  · cases hf : s.is_folded <;> cases ha : s.is_active <;> simp [h1, hf, ha]

theorem foldl_winnersStep_42 (community : List Nat)
    (L : List (Nat × (Nat × PlayerState))) (l : List Nat) :
    L.foldl (winnersStep community) (42, l) =
      (42, l ++ (L.filter sdEligPair).map Prod.fst) := by
  induction L generalizing l with
  | nil => simp
  | cons x L ih =>
    rw [List.foldl_cons, winnersStep_42, List.filter_cons]
    by_cases h : sdEligPair x = true
    · simp only [h, if_pos rfl, ih]
      simp
    · simp only [h]
      simp [ih]

theorem foldl_winnersStep_zero (community : List Nat)
    (L : List (Nat × (Nat × PlayerState))) :
    L.foldl (winnersStep community) (0, []) =
      if (L.filter sdEligPair) = [] then (0, [])
      else (42, (L.filter sdEligPair).map Prod.fst) := by
  induction L with
  | nil => simp
  | cons x L ih =>
    rw [List.foldl_cons, List.filter_cons]
    by_cases h : sdEligPair x = true
    · have hx : winnersStep community (0, []) x = (42, [x.1]) := by
        rcases x with ⟨i, p, s⟩
        unfold winnersStep evaluate_poker_hand
        unfold sdEligPair at h
        simp only [Bool.and_eq_true, bne_iff_ne, Bool.not_eq_true'] at h
        simp [h.1.1, h.1.2, h.2]
      rw [hx, foldl_winnersStep_42]
      simp [h]
    · have hx : winnersStep community (0, []) x = (0, []) := by
        rcases x with ⟨i, p, s⟩
        unfold winnersStep
        unfold sdEligPair at h
        simp only [Bool.and_eq_true, bne_iff_ne, Bool.not_eq_true'] at h
        by_cases h1 : p = 0
        · simp [h1]
        · cases hf : s.is_folded <;> cases ha : s.is_active <;>
            simp [h1, hf, ha] at h ⊢
      rw [hx, ih, if_neg h]

/-- The winner set computed by the showdown loop: exactly the indices of the
eligible (occupied, non-folded, active) pairs, in ascending scan order. -/
theorem collectWinners_eq (community : List Nat) (ps : List (Nat × PlayerState)) :
    (collectWinners community ps).2 =
      ((ps.enum.filter sdEligPair).map Prod.fst) := by
  unfold collectWinners
  rw [foldl_winnersStep_zero]
  split
  · rename_i h
    rw [h]
    rfl
  · rfl

theorem snd_mem_of_mem_enum {α : Type _} {L : List α} {x : Nat × α}
    (hx : x ∈ L.enum) : x.2 ∈ L := by
  rcases x with ⟨i, a⟩
  rw [List.enum_eq_enumFrom] at hx
  obtain ⟨-, hlt, heq⟩ := List.mem_enumFrom hx
  simp only [Nat.sub_zero] at heq
  rw [heq]
  exact List.getElem_mem _

/-! ## Claim C2 — showdown with an empty winner set -/

/-- C2 (code bug): when no seat is occupied, active and non-folded, the source
has no defensive guard — it evaluates `table.pot / winners.len()` with
`winners.len() = 0`.  In this embedding that division-by-zero panic is the
`.fault` outcome: the transaction aborts (so no state is committed), but the
claimed guarded `ErrorCode` rejection does not exist and the division site is
reached with an empty winner set. -/
theorem claim_C2_showdown_zero_winners (t : Table) (seats : List PlayerState)
    (hst : t.status = TableStatus.Playing) (hrd : t.round = Round.Showdown)
    (hno : ∀ pr ∈ t.players.zip seats,
      pr.1 = 0 ∨ pr.2.is_folded = true ∨ pr.2.is_active = false) :
    showdown t seats = .error .fault := by
  have hfil : ((t.players.zip seats).enum.filter sdEligPair) = [] := by
    rw [List.filter_eq_nil_iff]
    intro x hx
    have hmem := hno x.2 (snd_mem_of_mem_enum hx)
    unfold sdEligPair
    rcases hmem with h | h | h <;> simp [h]
  have hw : (collectWinners t.community_cards (t.players.zip seats)).2 = [] := by
    rw [collectWinners_eq, hfil]
    rfl
  unfold showdown
  rw [if_neg (by simp [hst]), if_neg (by simp [hrd])]
  simp [hw]

/-- Witness for C2: a concrete 2-seat table in the Showdown round where both
occupied seats have folded; `showdown` hits the unguarded zero-winner
division and aborts. -/
theorem claim_C2_witness :
    let t : Table :=
      { host := 1, buy_in := 100, small_blind := 5, big_blind := 10,
        max_players := 2, status := TableStatus.Playing, pot := 40,
        players := [1, 2], player_count := 2, current_player_index := 0,
        dealer_index := 0, round := Round.Showdown, highest_bet := 0,
        community_cards := [10, 11, 12, 13, 14] }
    let s1 : PlayerState :=
      { player := 1, chips := 80, is_active := true, is_folded := true,
        is_all_in := false, current_bet := 0, cards := (0, 1) }
    let s2 : PlayerState :=
      { player := 2, chips := 80, is_active := true, is_folded := true,
        is_all_in := false, current_bet := 0, cards := (2, 3) }
    showdown t [s1, s2] = .error .fault := by
  intro t s1 s2
  exact claim_C2_showdown_zero_winners t [s1, s2] rfl rfl (by decide)

theorem advanceLoop_aux (players : List Nat) (m start : Nat)
    (hs : start < m) (hlen : m ≤ players.length) :
    ∀ r k, r + k = m → 0 < r →
      advanceLoop players m start (r + 1) ((start + k) % m) =
        some
          (match ((List.range r).map (fun d => (start + k + 1 + d) % m)).find?
              (stopPred players start) with
            | some idx => idx
            | none => start) := by
  intro r
  induction r with
  | zero => intro k _ hr; exact absurd hr (by omega)
  | succ r ih =>
    intro k hk _
    have hm : 0 < m := by omega
    have hc : ((start + k) % m + 1) % m = (start + (k + 1)) % m := by
      rw [Nat.mod_add_mod, Nat.add_assoc]
    simp only [advanceLoop, hc]
    rcases Nat.eq_zero_or_pos r with hr0 | hrpos
    · subst hr0
      have hk1 : k + 1 = m := by omega
      have hcs : (start + (k + 1)) % m = start := by
        rw [hk1, Nat.add_mod_right, Nat.mod_eq_of_lt hs]
      rw [if_pos hcs, hcs]
      have hl : (List.range 1).map (fun d => (start + k + 1 + d) % m) = [start] := by
        show [(start + k + 1 + 0) % m] = [start]
        rw [show start + k + 1 + 0 = start + (k + 1) from by omega, hcs]
      rw [hl, List.find?_cons_of_pos _ (by simp [stopPred])]
    · have hne : (start + (k + 1)) % m ≠ start := by
        intro heq
        have hmod : start % m = (start + (k + 1)) % m := by
          rw [heq, Nat.mod_eq_of_lt hs]
        have hdvd : m ∣ start + (k + 1) - start :=
          (Nat.modEq_iff_dvd' (by omega)).mp hmod
        rw [show start + (k + 1) - start = k + 1 from by omega] at hdvd
        have := Nat.le_of_dvd (by omega) hdvd
        omega
      have hclt : (start + (k + 1)) % m < players.length :=
        lt_of_lt_of_le (Nat.mod_lt _ hm) hlen
      have hsome : players[(start + (k + 1)) % m]? =
          some (players[(start + (k + 1)) % m]) := List.getElem?_eq_getElem hclt
      have hlist : (List.range (r + 1)).map (fun d => (start + k + 1 + d) % m) =
          ((start + (k + 1)) % m) ::
            (List.range r).map (fun d => (start + (k + 1) + 1 + d) % m) := by
        rw [List.range_succ_eq_map, List.map_cons, List.map_map]
        congr 1
        apply List.map_congr_left
        intro d _
        show (start + k + 1 + (d + 1)) % m = (start + (k + 1) + 1 + d) % m
        congr 1
        omega
      rw [hlist]
      simp only [List.getElem?_eq_getElem hclt]
      by_cases hp : players[(start + (k + 1)) % m] ≠ 0
      · rw [if_neg hne, if_pos hp,
          List.find?_cons_of_pos _ (by simp [stopPred, hne, hsome, hp])]
      · push_neg at hp
        rw [if_neg hne, if_neg (by simpa using hp),
          List.find?_cons_of_neg _ (by simp [stopPred, hne, hsome, hp])]
        exact ih (k + 1) (by omega) hrpos

/-- What the source's `advance_to_next_player` computes: the first stop of the
circular scan taken modulo `player_count` (when the start index is in range
and the occupant count is within the seat array). -/
theorem advance_eq_firstStop (t : Table)
    (hs : t.current_player_index < t.player_count)
    (hlen : t.player_count ≤ t.players.length) :
    advance_to_next_player t =
      some { t with current_player_index :=
        (firstStop t.players t.player_count t.current_player_index) } := by
  have hm : 0 < t.player_count := by omega
  unfold advance_to_next_player
  rw [if_neg (by omega)]
  have haux := advanceLoop_aux t.players t.player_count t.current_player_index
    hs hlen t.player_count 0 (by omega) hm
  simp only [Nat.add_zero, Nat.mod_eq_of_lt hs] at haux
  rw [haux]
  unfold firstStop
  rfl

theorem firstStop_lt (players : List Nat) (m start : Nat)
    (hm : 0 < m) (hs : start < m) : firstStop players m start < m := by
  unfold firstStop
  cases hf : ((List.range m).map (fun d => (start + 1 + d) % m)).find?
      (stopPred players start) with
  | none => exact hs
  | some idx =>
    have hmem := List.mem_of_find?_eq_some hf
    rw [List.mem_map] at hmem
    obtain ⟨d, -, hd⟩ := hmem
    rw [← hd]
    exact Nat.mod_lt _ hm

theorem firstStop_stops (players : List Nat) (m start : Nat) :
    firstStop players m start = start ∨
      players.getD (firstStop players m start) 0 ≠ 0 := by
  unfold firstStop
  cases hf : ((List.range m).map (fun d => (start + 1 + d) % m)).find?
      (stopPred players start) with
  | none => exact Or.inl rfl
  | some idx =>
    have hp := List.find?_some hf
    unfold stopPred at hp
    rcases Bool.or_eq_true_iff.mp hp with h | h
    · exact Or.inl (by simpa using h)
    · exact Or.inr (by simpa using h)

/-! ## Claim C3 — the TurnScheduler scan -/

/-- Counterexample to C3: on the table `players = [1, 0, 2]`,
`player_count = 2`, `current_player_index = 0`, the code's scan (modulo
`player_count = 2`) wraps back and leaves the index at `0`, while the scan the
claim describes (modulo the full seat-array length 3, stopping at the first
non-empty seat) stops at index `2`. -/
theorem claim_C3_counterexample :
    let t : Table :=
      { host := 1, buy_in := 100, small_blind := 0, big_blind := 0,
        max_players := 3, status := TableStatus.Playing, pot := 0,
        players := [1, 0, 2], player_count := 2, current_player_index := 0,
        dealer_index := 0, round := Round.PreFlop, highest_bet := 0,
        community_cards := [0, 0, 0, 0, 0] }
    (advance_to_next_player t).map (fun t2 => t2.current_player_index) = some 0 ∧
    advanceSpecFullLen t.players t.current_player_index = 2 ∧ (0 : Nat) ≠ 2 := by
  refine ⟨by decide, by decide, by decide⟩

/-- C3 as amended: `TurnScheduler.advance` scans forward circularly with
indices taken modulo `player_count` (the live occupant count, **not** the full
seat-array length), stopping at the first scanned index that holds a non-empty
seat or that wraps back to the start (full revolution: index unchanged); when
the start index is within `[0, player_count)` and
`player_count ≤ seat-array length`, the loop terminates and never leaves
`current_player_index` outside `[0, player_count)` (hence inside
`[0, seat-array length)`). -/
theorem claim_C3_amended_scan (t : Table)
    (hs : t.current_player_index < t.player_count)
    (hlen : t.player_count ≤ t.players.length) :
    advance_to_next_player t =
      some { t with current_player_index :=
        (firstStop t.players t.player_count t.current_player_index) } ∧
    firstStop t.players t.player_count t.current_player_index < t.player_count ∧
    (firstStop t.players t.player_count t.current_player_index =
        t.current_player_index ∨
      t.players.getD (firstStop t.players t.player_count t.current_player_index)
        0 ≠ 0) :=
  ⟨advance_eq_firstStop t hs hlen,
    firstStop_lt t.players t.player_count t.current_player_index (by omega) hs,
    firstStop_stops t.players t.player_count t.current_player_index⟩

/-- Witness for C3 (amended): concrete table with occupants at slots 0 and 2 of
a 3-slot array; the scan modulo `player_count = 2` stops back at slot 0. -/
theorem claim_C3_witness :
    let t : Table :=
      { host := 1, buy_in := 100, small_blind := 0, big_blind := 0,
        max_players := 3, status := TableStatus.Playing, pot := 0,
        players := [1, 0, 2], player_count := 2, current_player_index := 0,
        dealer_index := 0, round := Round.PreFlop, highest_bet := 0,
        community_cards := [0, 0, 0, 0, 0] }
    advance_to_next_player t =
      some { t with current_player_index := firstStop t.players 2 0 } ∧
    firstStop t.players 2 0 < 2 ∧
    (firstStop t.players 2 0 = 0 ∨ t.players.getD (firstStop t.players 2 0) 0 ≠ 0) := by
  intro t
  exact claim_C3_amended_scan t (by decide) (by decide)

/-! ## Claim C5 — round-completion detection and reset -/

/-- Counterexample to C5: with occupants at slots 0 and 2 of a 3-slot array
(`player_count = 2`) and `dealer_index = 0`, a completed round sets
`current_player_index := (dealer_index + 1) % player_count = 1`, which is an
**empty** slot — not "the first non-empty seat found scanning from
`dealer_index + 1`" (that scan would stop at the occupied slot 2). -/
theorem claim_C5_counterexample :
    let t : Table :=
      { host := 1, buy_in := 100, small_blind := 0, big_blind := 0,
        max_players := 3, status := TableStatus.Playing, pot := 0,
        players := [1, 0, 2], player_count := 2, current_player_index := 0,
        dealer_index := 0, round := Round.PreFlop, highest_bet := 0,
        community_cards := [0, 0, 0, 0, 0] }
    let s1 : PlayerState :=
      { player := 1, chips := 50, is_active := true, is_folded := false,
        is_all_in := false, current_bet := 0, cards := (0, 1) }
    let sE : PlayerState :=
      { player := 0, chips := 0, is_active := false, is_folded := false,
        is_all_in := false, current_bet := 0, cards := (0, 0) }
    let s2 : PlayerState :=
      { player := 2, chips := 50, is_active := true, is_folded := false,
        is_all_in := false, current_bet := 0, cards := (2, 3) }
    (check_round_completion t [s1, sE, s2]).map
        (fun r => r.1.current_player_index) = some 1 ∧
    t.players.getD 1 9 = 0 ∧ t.players.getD 2 9 = 2 ∧ (2 : Nat) ≠ 0 := by
  refine ⟨by decide, by decide, by decide, by decide⟩

/-- C5 as amended: after any action, the round is detected as complete exactly
when every seat that is occupied, active, not folded and not all-in has
`current_bet = highest_bet` (under the documented invariant that no such
seat's `current_bet` exceeds `highest_bet`); on completion every seat's
`current_bet` is reset to 0, `highest_bet` is reset to 0, `round` advances one
step along PreFlop→Flop→Turn→River→Showdown (`nextRound`, a no-op past
Showdown), and `current_player_index` is set to
`(dealer_index + 1) % player_count` with **no occupancy scan**; when the round
is not complete, nothing changes. -/
theorem claim_C5_round_completion (t : Table) (seats : List PlayerState)
    (hpc : 0 < t.player_count)
    (hinv : ∀ pr ∈ t.players.zip seats,
      eligB pr = true → pr.2.current_bet ≤ t.highest_bet) :
    (roundComplete t seats = true ↔
      ∀ pr ∈ t.players.zip seats,
        eligB pr = true → pr.2.current_bet = t.highest_bet) ∧
    (roundComplete t seats = true →
      check_round_completion t seats =
        some
          ({ t with
              highest_bet := 0
              round := nextRound t.round
              current_player_index := (t.dealer_index + 1) % t.player_count },
            seats.map (fun s => { s with current_bet := 0 }))) ∧
    (roundComplete t seats = false →
      check_round_completion t seats = some (t, seats)) := by
  refine ⟨?_, ?_, ?_⟩
  · constructor
    · intro hrc pr hmem helig
      have hall := List.all_eq_true.mp hrc pr hmem
      rcases Bool.or_eq_true_iff.mp hall with h | h
      · rw [helig] at h
        simp at h
      · have hle := hinv pr hmem helig
        have hge : t.highest_bet ≤ pr.2.current_bet := by simpa using h
        omega
    · intro hall
      unfold roundComplete
      rw [List.all_eq_true]
      intro pr hmem
      by_cases helig : eligB pr = true
      · have := hall pr hmem helig
        simp [this]
      · have hf : eligB pr = false := Bool.eq_false_iff.mpr helig
        simp [hf]
  · intro hrc
    unfold check_round_completion
    rw [if_pos hrc, if_neg (by omega)]
  · intro hrc
    unfold check_round_completion
    rw [if_neg (by simp [hrc])]

/-- Witness for C5: a 2-seat table where both seats have matched the highest
bet; the round completes, bets and `highest_bet` reset, the round advances
PreFlop→Flop, and the turn pointer is set to `(dealer_index + 1) % 2 = 1`. -/
theorem claim_C5_witness :
    let t : Table :=
      { host := 1, buy_in := 100, small_blind := 5, big_blind := 10,
        max_players := 2, status := TableStatus.Playing, pot := 20,
        players := [1, 2], player_count := 2, current_player_index := 0,
        dealer_index := 0, round := Round.PreFlop, highest_bet := 10,
        community_cards := [0, 0, 0, 0, 0] }
    let s1 : PlayerState :=
      { player := 1, chips := 90, is_active := true, is_folded := false,
        is_all_in := false, current_bet := 10, cards := (0, 1) }
    let s2 : PlayerState :=
      { player := 2, chips := 90, is_active := true, is_folded := false,
        is_all_in := false, current_bet := 10, cards := (2, 3) }
    (roundComplete t [s1, s2] = true ↔
      ∀ pr ∈ t.players.zip [s1, s2],
        eligB pr = true → pr.2.current_bet = t.highest_bet) ∧
    (roundComplete t [s1, s2] = true →
      check_round_completion t [s1, s2] =
        some
          ({ t with
              highest_bet := 0
              round := nextRound t.round
              current_player_index := (t.dealer_index + 1) % t.player_count },
            [s1, s2].map (fun s => { s with current_bet := 0 }))) ∧
    (roundComplete t [s1, s2] = false →
      check_round_completion t [s1, s2] = some (t, [s1, s2])) := by
  intro t s1 s2
  exact claim_C5_round_completion t [s1, s2] (by decide) (by decide)

/-! ## Claim C4 — the Playing-state turn-pointer invariant -/

/-- C4 (code bug): a reachable `Playing` table with non-contiguous occupancy
(slots 0, 2, 3 occupied out of 4; slot 1 vacated before the game started;
blinds of 0 make the non-contiguous start well-behaved) in which
`current_player_index = 2` addresses a non-empty slot; a single legal `check`
by the player at slot 2 completes the pre-flop round, and the round-completion
reset sets `current_player_index := (dealer_index + 1) % player_count = 1`,
an **empty** slot, while the table stays `Playing` — violating the claimed
invariant that `current_player_index` always addresses a non-empty slot when
`status == Playing`. -/
theorem claim_C4_turn_pointer_bug :
    let t : Table :=
      { host := 1, buy_in := 100, small_blind := 0, big_blind := 0,
        max_players := 4, status := TableStatus.Playing, pot := 0,
        players := [1, 0, 2, 3], player_count := 3, current_player_index := 2,
        dealer_index := 0, round := Round.PreFlop, highest_bet := 0,
        community_cards := [0, 0, 0, 0, 0] }
    let seats : List PlayerState :=
      [{ player := 1, chips := 100, is_active := true, is_folded := false,
         is_all_in := false, current_bet := 0, cards := (0, 1) },
       { player := 9, chips := 0, is_active := false, is_folded := false,
         is_all_in := false, current_bet := 0, cards := (0, 0) },
       { player := 2, chips := 100, is_active := true, is_folded := false,
         is_all_in := false, current_bet := 0, cards := (2, 3) },
       { player := 3, chips := 100, is_active := true, is_folded := false,
         is_all_in := false, current_bet := 0, cards := (4, 5) }]
    t.players.getD t.current_player_index 9 = 2 ∧ (2 : Nat) ≠ 0 ∧
    ((applyAction ⟨t, seats⟩ (GameAction.check 2 2)).map
        (fun g => (g.table.status,
          g.table.players.getD g.table.current_player_index 9))).toOption =
      some (TableStatus.Playing, 0) := by
  refine ⟨by decide, by decide, by decide⟩

theorem chk_sub_none {a b : Nat} (h : a < b) : chk_sub a b = none := by
  unfold chk_sub
  rw [if_neg (by omega)]

theorem betApply_eq (idx amount delta : Nat) (s : PlayerState) (t : Table)
    (seats : List PlayerState) (hov : t.pot + delta ≤ u64Max) :
    betApply idx amount delta s t seats =
      postAction
        { t with pot := t.pot + delta, highest_bet := max t.highest_bet amount }
        (seats.set idx { s with chips := s.chips - delta, current_bet := amount }) := by
  have hmax : (if t.highest_bet < amount then amount else t.highest_bet) =
      max t.highest_bet amount := by
    split <;> omega
  simp only [betApply, chk_add_of_le hov, hmax]

/-! ## Claim C6 — bet validation and mutation rules -/

/-- C6: with a valid acting seat (correct identity, Playing, not folded,
active, at turn), `bet amount`:
* panics (transaction abort) when `amount` is below the already-committed
  `current_bet` (the source's `checked_sub(..).unwrap()`);
* fails with `InsufficientChips` when `chips < amount − current_bet`;
* fails with `BetTooSmall` when `highest_bet < amount < highest_bet + big_blind`
  (minimum-raise rule) and when `amount < highest_bet`;
* permits `amount = highest_bet` (call-equivalent) and any
  `amount ≥ highest_bet + big_blind`, in which case it debits
  `delta = amount − current_bet` from the seat, sets `current_bet := amount`,
  credits `pot += delta` and sets `highest_bet := max highest_bet amount`,
  then runs the common turn-advance / round-completion tail. -/
theorem claim_C6_bet_rules (t : Table) (seats : List PlayerState)
    (actor idx amount : Nat) (s : PlayerState)
    (hseat : seats[idx]? = some s) (hpl : s.player = actor)
    (hst : t.status = TableStatus.Playing) (hf : s.is_folded = false)
    (ha : s.is_active = true)
    (hturn : t.players[t.current_player_index]? = some actor) :
    (amount < s.current_bet → bet actor idx amount t seats = .error .fault) ∧
    (s.current_bet ≤ amount → s.chips < amount - s.current_bet →
      bet actor idx amount t seats = .error (.code .InsufficientChips)) ∧
    (s.current_bet ≤ amount → amount - s.current_bet ≤ s.chips →
      t.highest_bet < amount → amount < t.highest_bet + t.big_blind →
      t.highest_bet + t.big_blind ≤ u64Max →
      bet actor idx amount t seats = .error (.code .BetTooSmall)) ∧
    (s.current_bet ≤ amount → amount - s.current_bet ≤ s.chips →
      amount < t.highest_bet →
      bet actor idx amount t seats = .error (.code .BetTooSmall)) ∧
    (s.current_bet ≤ amount → amount - s.current_bet ≤ s.chips →
      (amount = t.highest_bet ∨
        (t.highest_bet + t.big_blind ≤ amount ∧
          t.highest_bet + t.big_blind ≤ u64Max)) →
      t.pot + (amount - s.current_bet) ≤ u64Max →
      bet actor idx amount t seats =
        postAction
          { t with
              pot := t.pot + (amount - s.current_bet)
              highest_bet := max t.highest_bet amount }
          (seats.set idx
            { s with
                chips := s.chips - (amount - s.current_bet)
                current_bet := amount })) := by
  have hgate : actionGate actor idx t seats = .ok s :=
    actionGate_of_valid hseat hpl hst hf ha hturn
  refine ⟨?_, ?_, ?_, ?_, ?_⟩
  · intro hlt
    simp only [bet, hgate, chk_sub_none hlt]
  · intro hle hchips
    simp only [bet, hgate, chk_sub_of_le hle]
    rw [if_pos hchips]
  · intro hle hchips hhb hsmall hbbu
    simp only [bet, hgate, chk_sub_of_le hle]
    rw [if_neg (by omega), if_pos hhb]
    simp only [chk_add_of_le hbbu]
    rw [if_pos hsmall]
  · intro hle hchips hlt
    simp only [bet, hgate, chk_sub_of_le hle]
    rw [if_neg (by omega), if_neg (by omega), if_pos (by omega)]
  · intro hle hchips hok hov
    have happly := betApply_eq idx amount (amount - s.current_bet) s t seats hov
    rcases hok with heq | ⟨hraise, hbbu⟩
    · simp only [bet, hgate, chk_sub_of_le hle]
      rw [if_neg (by omega), if_neg (by omega), if_neg (by omega)]
      exact happly
    · by_cases hhb : t.highest_bet < amount
      · simp only [bet, hgate, chk_sub_of_le hle]
        rw [if_neg (by omega), if_pos hhb]
        simp only [chk_add_of_le hbbu]
        rw [if_neg (by omega)]
        exact happly
      · simp only [bet, hgate, chk_sub_of_le hle]
        rw [if_neg (by omega), if_neg hhb, if_neg (by omega)]
        exact happly

/-- Witness for C6, using the spec's worked example: `highest_bet = 100`,
`big_blind = 20`; a bet of 110 fails (`BetTooSmall`) and a bet of 120
succeeds, debiting 120, crediting the pot and raising `highest_bet` to 120. -/
theorem claim_C6_witness :
    let t : Table :=
      { host := 1, buy_in := 1000, small_blind := 10, big_blind := 20,
        max_players := 2, status := TableStatus.Playing, pot := 200,
        players := [1, 2], player_count := 2, current_player_index := 0,
        dealer_index := 0, round := Round.Flop, highest_bet := 100,
        community_cards := [0, 0, 0, 0, 0] }
    let s1 : PlayerState :=
      { player := 1, chips := 500, is_active := true, is_folded := false,
        is_all_in := false, current_bet := 0, cards := (0, 1) }
    let s2 : PlayerState :=
      { player := 2, chips := 400, is_active := true, is_folded := false,
        is_all_in := false, current_bet := 100, cards := (2, 3) }
    bet 1 0 110 t [s1, s2] = .error (.code .BetTooSmall) ∧
    bet 1 0 120 t [s1, s2] =
      postAction
        { t with pot := t.pot + (120 - s1.current_bet),
                 highest_bet := max t.highest_bet 120 }
        ([s1, s2].set 0
          { s1 with chips := s1.chips - (120 - s1.current_bet),
                    current_bet := 120 }) := by
  intro t s1 s2
  constructor
  · exact (claim_C6_bet_rules t [s1, s2] 1 0 110 s1 rfl rfl rfl rfl rfl
      rfl).2.2.1 (by decide) (by decide) (by decide) (by decide) (by decide)
  · exact (claim_C6_bet_rules t [s1, s2] 1 0 120 s1 rfl rfl rfl rfl rfl
      rfl).2.2.2.2 (by decide) (by decide) (Or.inr ⟨by decide, by decide⟩)
      (by decide)

theorem fyAux_injective (n : Nat) :
    ∀ (rng : Nat) (f : Fin 52 → Fin 52), Function.Injective f →
      Function.Injective (fyAux n rng f) := by
  induction n with
  | zero => intro rng f hf; simpa [fyAux] using hf
  | succ n ih =>
    intro rng f hf
    simp only [fyAux]
    split
    · exact ih _ _ (hf.comp (Equiv.injective _))
    · exact ih _ _ hf

/-! ## Claim C9 — the deck generator -/

/-- C9: for every seed, `generate_shuffled_deck` returns exactly 52 card
codes forming a permutation of `0..51` (all distinct, each in range), and as
a pure function it returns the identical sequence on every invocation with
the same seed. -/
theorem claim_C9_deck (seed : Nat) :
    (generate_shuffled_deck seed).length = 52 ∧
    (generate_shuffled_deck seed).Perm (List.range 52) ∧
    generate_shuffled_deck seed = generate_shuffled_deck seed := by
  have hinj : Function.Injective (fyAux 51 seed id) :=
    fyAux_injective 51 seed id (fun a b h => h)
  have hinjv : Function.Injective (fun k : Fin 52 => (fyAux 51 seed id k : Nat)) := by
    intro a b h
    exact hinj (Fin.val_injective h)
  refine ⟨List.length_ofFn _, ?_, rfl⟩
  have hnd : (generate_shuffled_deck seed).Nodup := List.nodup_ofFn.mpr hinjv
  have hsurj : Function.Surjective (fyAux 51 seed id) :=
    Finite.injective_iff_surjective.mp hinj
  rw [List.perm_ext_iff_of_nodup hnd (List.nodup_range 52)]
  intro a
  rw [List.mem_range]
  unfold generate_shuffled_deck
  rw [List.mem_ofFn]
  constructor
  · rintro ⟨k, hk⟩
    rw [← hk]
    exact (fyAux 51 seed id k).isLt
  · intro ha
    obtain ⟨k, hk⟩ := hsurj ⟨a, ha⟩
    exact ⟨k, by simp only [hk]⟩

theorem enumFrom_pairwise_lt {α : Type _} (l : List α) :
    ∀ n, (List.enumFrom n l).Pairwise (fun a b => a.1 < b.1) := by
  induction l with
  | nil => intro n; simp
  | cons x xs ih =>
    intro n
    rw [List.enumFrom, List.pairwise_cons]
    refine ⟨?_, ih (n + 1)⟩
    rintro ⟨i, y⟩ hb
    have := (List.mem_enumFrom hb).1
    simpa using by omega

theorem winners_pairwise (community : List Nat) (ps : List (Nat × PlayerState)) :
    ((collectWinners community ps).2).Pairwise (· < ·) := by
  rw [collectWinners_eq]
  rw [List.pairwise_map]
  apply List.Pairwise.filter
  rw [List.enum_eq_enumFrom]
  exact enumFrom_pairwise_lt ps 0

theorem winners_lt_length (community : List Nat) (ps : List (Nat × PlayerState)) :
    ∀ j ∈ (collectWinners community ps).2, j < ps.length := by
  rw [collectWinners_eq]
  intro j hj
  rw [List.mem_map] at hj
  obtain ⟨x, hx, hxj⟩ := hj
  have hxe : x ∈ ps.enum := List.mem_of_mem_filter hx
  rcases x with ⟨i, y⟩
  rw [List.enum_eq_enumFrom] at hxe
  have := (List.mem_enumFrom hxe).2.1
  simp only at hxj
  omega

theorem addToSeats_spec (amt : Nat) :
    ∀ (idxs : List Nat) (seats : List PlayerState),
      idxs.Nodup →
      (∀ j ∈ idxs, ∃ sj, seats[j]? = some sj ∧ sj.chips + amt ≤ u64Max) →
      ∃ out, addToSeats amt idxs seats = some out ∧
        out.length = seats.length ∧
        (∀ j, j ∉ idxs → out[j]? = seats[j]?) ∧
        (∀ j ∈ idxs, ∀ sj, seats[j]? = some sj →
          out[j]? = some { sj with chips := sj.chips + amt }) := by
  intro idxs
  induction idxs with
  | nil =>
    intro seats _ _
    exact ⟨seats, rfl, rfl, fun j _ => rfl, fun j hj => absurd hj (by simp)⟩
  | cons i rest ih =>
    intro seats hnd hexists
    rw [List.nodup_cons] at hnd
    obtain ⟨hnotin, hndrest⟩ := hnd
    obtain ⟨si, hsi, hbound⟩ := hexists i (by simp)
    have hset_same :
        (seats.set i { si with chips := si.chips + amt })[i]? =
          some { si with chips := si.chips + amt } := by
      rw [List.getElem?_set_self', hsi]
      rfl
    have hset_ne : ∀ j, j ≠ i →
        (seats.set i { si with chips := si.chips + amt })[j]? = seats[j]? := by
      intro j hji
      exact List.getElem?_set_ne (fun h => hji h.symm)
    have hex2 : ∀ j ∈ rest,
        ∃ sj, (seats.set i { si with chips := si.chips + amt })[j]? = some sj ∧
          sj.chips + amt ≤ u64Max := by
      intro j hj
      have hji : j ≠ i := fun h => hnotin (h ▸ hj)
      obtain ⟨sj, hsj, hb⟩ := hexists j (by simp [hj])
      exact ⟨sj, by rw [hset_ne j hji]; exact hsj, hb⟩
    obtain ⟨out, hout, hlen, hfr, hhit⟩ :=
      ih (seats.set i { si with chips := si.chips + amt }) hndrest hex2
    refine ⟨out, ?_, ?_, ?_, ?_⟩
    · simp only [addToSeats, hsi, chk_add_of_le hbound]
      exact hout
    · rw [hlen, List.length_set]
    · intro j hj
      have hji : j ≠ i := fun h => hj (by simp [h])
      have hjr : j ∉ rest := fun h => hj (by simp [h])
      rw [hfr j hjr, hset_ne j hji]
    · intro j hj sj hsj
      rcases List.mem_cons.mp hj with hji | hjr
      · subst hji
        rw [hsi] at hsj
        injection hsj with hsj
        subst hsj
        rw [hfr j hnotin]
        exact hset_same
      · have hji : j ≠ i := fun h => hnotin (h ▸ hjr)
        exact hhit j hjr sj (by rw [hset_ne j hji]; exact hsj)

theorem mem_of_head?_eq_some {α : Type _} {l : List α} {a : α}
    (h : l.head? = some a) : a ∈ l := by
  cases l with
  | nil => cases h
  | cons x xs =>
    simp only [List.head?_cons, Option.some_inj] at h
    simp [h]

/-! ## Claim C7 — showdown pot split -/

/-- C7: at showdown with a non-empty winner set, the winners are collected in
strictly ascending seat-index order; each winner's chips increase by
`pot / winnerCount` (integer division); the remainder `pot % winnerCount`
goes entirely to the first (lowest-indexed) winner; every other seat is
untouched; and the table status becomes `Finished` (all other table fields,
including `pot`, unchanged). -/
theorem claim_C7_showdown_split (t : Table) (seats : List PlayerState)
    (hst : t.status = TableStatus.Playing) (hrd : t.round = Round.Showdown)
    (hW : (collectWinners t.community_cards (t.players.zip seats)).2 ≠ [])
    (hov : ∀ s ∈ seats, s.chips + t.pot ≤ u64Max) :
    let W := (collectWinners t.community_cards (t.players.zip seats)).2
    W.Pairwise (· < ·) ∧
    ∃ seats' : List PlayerState,
      showdown t seats = .ok ({ t with status := TableStatus.Finished }, seats') ∧
      seats'.length = seats.length ∧
      ∀ (j : Nat) (sj : PlayerState), seats[j]? = some sj →
        seats'[j]? = some
          { sj with chips := sj.chips +
              ((if j ∈ W then t.pot / W.length else 0) +
                (if W.head? = some j then t.pot % W.length else 0)) } := by
  intro W
  have hpw : W.Pairwise (· < ·) := winners_pairwise _ _
  refine ⟨hpw, ?_⟩
  have hnd : W.Nodup := hpw.imp (fun h => Nat.ne_of_lt h)
  have hlen2 : ∀ j ∈ W, j < seats.length := by
    intro j hj
    have hj2 := winners_lt_length t.community_cards (t.players.zip seats) j hj
    rw [List.length_zip] at hj2
    omega
  have hex : ∀ j ∈ W,
      ∃ sj, seats[j]? = some sj ∧ sj.chips + t.pot / W.length ≤ u64Max := by
    intro j hj
    have hjl := hlen2 j hj
    refine ⟨seats[j], List.getElem?_eq_getElem hjl, ?_⟩
    have hb := hov _ (List.getElem_mem hjl)
    have hsh : t.pot / W.length ≤ t.pot := Nat.div_le_self _ _
    omega
  obtain ⟨out, hout, hlenout, hfr, hhit⟩ :=
    addToSeats_spec (t.pot / W.length) W seats hnd hex
  have hWlen : W.length ≠ 0 := by
    intro h
    exact hW (List.length_eq_zero.mp h)
  obtain ⟨w0, hw0⟩ : ∃ w0, W.head? = some w0 := by
    cases hWl : W with
    | nil => exact absurd hWl hW
    | cons a l => exact ⟨a, rfl⟩
  have hw0W : w0 ∈ W := mem_of_head?_eq_some hw0
  obtain ⟨sw0, hsw0, hbw0⟩ := hex w0 hw0W
  have hout_w0 : out[w0]? = some { sw0 with chips := sw0.chips + t.pot / W.length } :=
    hhit w0 hw0W sw0 hsw0
  have hshrem : t.pot / W.length + t.pot % W.length ≤ t.pot := by
    have hdm := Nat.div_add_mod t.pot W.length
    have hle : t.pot / W.length ≤ W.length * (t.pot / W.length) :=
      Nat.le_mul_of_pos_left _ (by omega)
    omega
  have hbw0' : sw0.chips + t.pot / W.length + t.pot % W.length ≤ u64Max := by
    have := hov sw0 (by
      have := List.getElem?_eq_some.mp hsw0
      obtain ⟨hlt, heq⟩ := this
      rw [← heq]
      exact List.getElem_mem hlt)
    omega
  by_cases hrem : t.pot % W.length > 0
  · refine ⟨out.set w0
      { sw0 with chips := sw0.chips + t.pot / W.length + t.pot % W.length },
      ?_, ?_, ?_⟩
    · unfold showdown
      rw [if_neg (by simp [hst]), if_neg (by simp [hrd])]
      simp only [hout, hw0, hout_w0, chk_add_of_le hbw0', if_neg (by omega : ¬ W.length = 0),
        if_pos hrem]
    · rw [List.length_set, hlenout]
    · intro j sj hsj
      by_cases hjw0 : j = w0
      · subst hjw0
        rw [hsw0] at hsj
        injection hsj with hsj
        subst hsj
        rw [List.getElem?_set_self', hout_w0]
        simp only [Option.map_eq_map, Option.map_some', Function.const_apply]
        rw [if_pos hw0W, if_pos hw0]
        simp [Nat.add_assoc]
      · rw [List.getElem?_set_ne (fun h => hjw0 h.symm)]
        have hhead : ¬ W.head? = some j := by
          rw [hw0]
          intro h
          injection h with h
          exact hjw0 h.symm
        rw [if_neg hhead]
        by_cases hjW : j ∈ W
        · rw [hhit j hjW sj hsj]
          simp [hjW]
        · rw [hfr j hjW, hsj, if_neg hjW]
          simp
  · refine ⟨out, ?_, hlenout, ?_⟩
    · unfold showdown
      rw [if_neg (by simp [hst]), if_neg (by simp [hrd])]
      simp only [hout, if_neg (by omega : ¬ W.length = 0), if_neg hrem]
    · intro j sj hsj
      have hrem0 : t.pot % W.length = 0 := by omega
      by_cases hjW : j ∈ W
      · rw [hhit j hjW sj hsj, if_pos hjW]
        by_cases hh : W.head? = some j <;> simp [hh, hrem0]
      · rw [hfr j hjW, hsj, if_neg hjW]
        by_cases hh : W.head? = some j <;> simp [hh, hrem0]

/-- Witness for C7, on the spec's worked example: pot = 100, occupied seats
0, 2, 3 tie as winners in ascending scan order (seat 1 is occupied but
folded); seat 0 receives `100 / 3 + 100 % 3 = 34`, seats 2 and 3 receive 33
each, and the table becomes `Finished`. -/
theorem claim_C7_witness :
    let t : Table :=
      { host := 1, buy_in := 100, small_blind := 5, big_blind := 10,
        max_players := 4, status := TableStatus.Playing, pot := 100,
        players := [1, 7, 2, 3], player_count := 4, current_player_index := 0,
        dealer_index := 0, round := Round.Showdown, highest_bet := 0,
        community_cards := [10, 11, 12, 13, 14] }
    let seats : List PlayerState :=
      [{ player := 1, chips := 50, is_active := true, is_folded := false,
         is_all_in := false, current_bet := 0, cards := (0, 1) },
       { player := 7, chips := 40, is_active := true, is_folded := true,
         is_all_in := false, current_bet := 0, cards := (2, 3) },
       { player := 2, chips := 50, is_active := true, is_folded := false,
         is_all_in := false, current_bet := 0, cards := (4, 5) },
       { player := 3, chips := 50, is_active := true, is_folded := false,
         is_all_in := false, current_bet := 0, cards := (6, 7) }]
    (let W := (collectWinners t.community_cards (t.players.zip seats)).2
     W.Pairwise (· < ·) ∧
     ∃ seats' : List PlayerState,
       showdown t seats = .ok ({ t with status := TableStatus.Finished }, seats') ∧
       seats'.length = seats.length ∧
       ∀ (j : Nat) (sj : PlayerState), seats[j]? = some sj →
         seats'[j]? = some
           { sj with chips := sj.chips +
               ((if j ∈ W then t.pot / W.length else 0) +
                 (if W.head? = some j then t.pot % W.length else 0)) }) ∧
    (collectWinners
        [10, 11, 12, 13, 14] ([1, 7, 2, 3].zip
          [{ player := 1, chips := 50, is_active := true, is_folded := false,
             is_all_in := false, current_bet := 0, cards := (0, 1) },
           { player := 7, chips := 40, is_active := true, is_folded := true,
             is_all_in := false, current_bet := 0, cards := (2, 3) },
           { player := 2, chips := 50, is_active := true, is_folded := false,
             is_all_in := false, current_bet := 0, cards := (4, 5) },
           { player := 3, chips := 50, is_active := true, is_folded := false,
             is_all_in := false, current_bet := 0, cards := (6, 7) }])).2 =
      [0, 2, 3] := by
  intro t seats
  constructor
  · exact claim_C7_showdown_split t seats rfl rfl (by decide) (by decide)
  · decide

theorem awardFirst_first (pot : Nat) :
    ∀ (l : List PlayerState) (w : Nat) (sw : PlayerState),
      (∀ sk ∈ l.take w, (sk.is_active && !sk.is_folded) = false) →
      l[w]? = some sw → (sw.is_active && !sw.is_folded) = true →
      sw.chips + pot ≤ u64Max →
      awardFirst pot l = some (l.set w { sw with chips := sw.chips + pot }) := by
  intro l
  induction l with
  | nil =>
    intro w sw _ hw
    simp at hw
  | cons x xs ih =>
    intro w sw hfirst hw hact hov
    cases w with
    | zero =>
      simp only [List.getElem?_cons_zero, Option.some_inj] at hw
      subst hw
      unfold awardFirst
      rw [if_pos hact]
      simp only [chk_add_of_le hov]
      rfl
    | succ w' =>
      have hx : (x.is_active && !x.is_folded) = false :=
        hfirst x (by simp [List.take_succ_cons])
      unfold awardFirst
      rw [if_neg (by simp [hx])]
      rw [ih w' sw ?_ ?_ hact hov]
      · rfl
      · intro sk hsk
        exact hfirst sk (by simp [List.take_succ_cons, hsk])
      · simpa using hw

/-! ## Claim C10 — frame of the fold-to-one-winner shortcut -/

/-- C10: when a fold leaves exactly one occupied, active, non-folded seat, the
result changes only: the folding seat's `is_folded` flag, the turn pointer
(advanced before the shortcut check), the winner's chips (increased by exactly
the pot) and the table status (set to `Finished`).  Everything else — the
`pot` field, `round`, `highest_bet`, every seat's `current_bet`, and all other
seats — retains its prior value, as the explicit result record shows; the pot
field is only zeroed later by `reset_table` (final conjunct).  The winner seat
`w` is here pinned down as the first seat in `player_states` order that is
active and not folded after the fold (which the source's winner loop selects);
`w ≠ idx` since the folding seat was just marked folded. -/
theorem claim_C10_fold_shortcut_frame (t : Table) (seats : List PlayerState)
    (actor idx w : Nat) (s sw : PlayerState)
    (hseat : seats[idx]? = some s) (hpl : s.player = actor)
    (hst : t.status = TableStatus.Playing) (hf : s.is_folded = false)
    (ha : s.is_active = true)
    (hturn : t.players[t.current_player_index]? = some actor)
    (hcur : t.current_player_index < t.player_count)
    (hlen : t.player_count ≤ t.players.length)
    (hcount : count_active_players t.players
      (seats.set idx { s with is_folded := true }) = 1)
    (hwfirst : ∀ sk ∈ (seats.set idx { s with is_folded := true }).take w,
      (sk.is_active && !sk.is_folded) = false)
    (hww : (seats.set idx { s with is_folded := true })[w]? = some sw)
    (hwa : (sw.is_active && !sw.is_folded) = true)
    (hov : sw.chips + t.pot ≤ u64Max) :
    fold actor idx t seats =
      .ok
        ({ t with
            status := TableStatus.Finished
            current_player_index :=
              (firstStop t.players t.player_count t.current_player_index) },
          (seats.set idx { s with is_folded := true }).set w
            { sw with chips := sw.chips + t.pot }) ∧
    w ≠ idx ∧
    (∀ r, reset_table t.host
        { t with
            status := TableStatus.Finished
            current_player_index :=
              (firstStop t.players t.player_count t.current_player_index) }
        ((seats.set idx { s with is_folded := true }).set w
          { sw with chips := sw.chips + t.pot }) = .ok r →
      r.1.pot = 0) := by
  have hgate : actionGate actor idx t seats = .ok s :=
    actionGate_of_valid hseat hpl hst hf ha hturn
  have hadv := advance_eq_firstStop t hcur hlen
  refine ⟨?_, ?_, ?_⟩
  · simp only [fold, hgate, hadv]
    rw [if_pos hcount,
      awardFirst_first t.pot (seats.set idx { s with is_folded := true })
        w sw hwfirst hww hwa hov]
  · intro h
    subst h
    have hwid : (seats.set w { s with is_folded := true })[w]? =
        some { s with is_folded := true } := by
      rw [List.getElem?_set_self', hseat]
      rfl
    rw [hwid] at hww
    injection hww with hww
    rw [← hww] at hwa
    simp at hwa
  · intro r hr
    unfold reset_table at hr
    rw [if_neg (by simp), if_neg (by simp)] at hr
    injection hr with hr
    rw [← hr]

/-- Witness for C10: concrete 3-seat table, pot 30; seat 1 is already folded,
seat 0 folds, leaving seat 2 as the only contender, which receives the whole
pot while `pot`, `round`, `highest_bet` and all `current_bet`s are unchanged;
a subsequent `reset_table` zeroes the pot. -/
theorem claim_C10_witness :
    let t : Table :=
      { host := 1, buy_in := 100, small_blind := 5, big_blind := 10,
        max_players := 3, status := TableStatus.Playing, pot := 30,
        players := [1, 2, 3], player_count := 3, current_player_index := 0,
        dealer_index := 0, round := Round.PreFlop, highest_bet := 10,
        community_cards := [0, 0, 0, 0, 0] }
    let sA : PlayerState :=
      { player := 1, chips := 90, is_active := true, is_folded := false,
        is_all_in := false, current_bet := 10, cards := (0, 1) }
    let sB : PlayerState :=
      { player := 2, chips := 90, is_active := true, is_folded := true,
        is_all_in := false, current_bet := 10, cards := (2, 3) }
    let sC : PlayerState :=
      { player := 3, chips := 90, is_active := true, is_folded := false,
        is_all_in := false, current_bet := 10, cards := (4, 5) }
    fold 1 0 t [sA, sB, sC] =
      .ok
        ({ t with
            status := TableStatus.Finished
            current_player_index := (firstStop t.players 3 0) },
          ([sA, sB, sC].set 0 { sA with is_folded := true }).set 2
            { sC with chips := sC.chips + t.pot }) ∧
    (2 : Nat) ≠ 0 ∧
    (∀ r, reset_table t.host
        { t with
            status := TableStatus.Finished
            current_player_index := (firstStop t.players 3 0) }
        (([sA, sB, sC].set 0 { sA with is_folded := true }).set 2
          { sC with chips := sC.chips + t.pot }) = .ok r →
      r.1.pot = 0) := by
  intro t sA sB sC
  exact claim_C10_fold_shortcut_frame t [sA, sB, sC] 1 0 2 sA sC rfl rfl rfl rfl
    rfl rfl (by decide) (by decide) (by decide) (by decide) rfl rfl (by decide)

theorem except_map_ok {ε α β : Type _} {f : α → β} {x : Except ε α} {b : β}
    (h : Except.map f x = .ok b) : ∃ a, x = .ok a ∧ f a = b := by
  cases x with
  | error e => simp [Except.map] at h
  | ok a =>
    refine ⟨a, rfl, ?_⟩
    simpa [Except.map] using h

theorem betApply_Q {idx amount delta : Nat} {s : PlayerState} {t : Table}
    {seats : List PlayerState} {t' : Table} {s2 : List PlayerState}
    (hseat : seats[idx]? = some s) (hdc : delta ≤ s.chips)
    (h : betApply idx amount delta s t seats = .ok (t', s2)) :
    t'.pot + sumChips s2 = t.pot + sumChips seats ∧ t'.status = t.status := by
  unfold betApply at h
  cases hca : chk_add t.pot delta with
  | none => rw [hca] at h; exact absurd h (by simp)
  | some newPot =>
    rw [hca] at h
    obtain ⟨hnp, -⟩ := chk_add_some hca
    have hpp := postAction_preserves h
    have hsum := sumChips_set
      { s with chips := s.chips - delta, current_bet := amount } hseat
    obtain ⟨hst2, hpot2, hsum2⟩ := hpp
    have hpot3 : t'.pot = newPot := hpot2
    refine ⟨?_, by rw [hst2]⟩
    rw [hpot3, hsum2]
    simp only at hsum
    omega

theorem bet_Q {actor idx amount : Nat} {t : Table} {seats : List PlayerState}
    {t' : Table} {s2 : List PlayerState}
    (h : bet actor idx amount t seats = .ok (t', s2)) :
    t'.pot + sumChips s2 = t.pot + sumChips seats ∧
      t'.status = TableStatus.Playing := by
  unfold bet at h
  cases hg : actionGate actor idx t seats with
  | error e => rw [hg] at h; exact absurd h (by simp)
  | ok s =>
    obtain ⟨hseat, -, hstP, -, -, -⟩ := actionGate_ok hg
    rw [hg] at h
    simp only at h
    cases hcs : chk_sub amount s.current_bet with
    | none => rw [hcs] at h; exact absurd h (by simp)
    | some delta =>
      rw [hcs] at h
      simp only at h
      split at h
      · exact absurd h (by simp)
      · rename_i hchips
        push_neg at hchips
        split at h
        · cases hca : chk_add t.highest_bet t.big_blind with
          | none => rw [hca] at h; exact absurd h (by simp)
          | some minRaise =>
            rw [hca] at h
            simp only at h
            split at h
            · exact absurd h (by simp)
            · have := betApply_Q hseat hchips h
              exact ⟨this.1, by rw [this.2, hstP]⟩
        · split at h
          · exact absurd h (by simp)
          · have := betApply_Q hseat hchips h
            exact ⟨this.1, by rw [this.2, hstP]⟩

theorem check_Q {actor idx : Nat} {t : Table} {seats : List PlayerState}
    {t' : Table} {s2 : List PlayerState}
    (h : check actor idx t seats = .ok (t', s2)) :
    t'.pot + sumChips s2 = t.pot + sumChips seats ∧
      t'.status = TableStatus.Playing := by
  unfold check at h
  cases hg : actionGate actor idx t seats with
  | error e => rw [hg] at h; exact absurd h (by simp)
  | ok s =>
    obtain ⟨-, -, hstP, -, -, -⟩ := actionGate_ok hg
    rw [hg] at h
    simp only at h
    split at h
    · obtain ⟨hst2, hpot2, hsum2⟩ := postAction_preserves h
      exact ⟨by rw [hpot2, hsum2], by rw [hst2, hstP]⟩
    · exact absurd h (by simp)

theorem call_Q {actor idx : Nat} {t : Table} {seats : List PlayerState}
    {t' : Table} {s2 : List PlayerState}
    (h : call actor idx t seats = .ok (t', s2)) :
    t'.pot + sumChips s2 = t.pot + sumChips seats ∧
      t'.status = TableStatus.Playing := by
  unfold call at h
  cases hg : actionGate actor idx t seats with
  | error e => rw [hg] at h; exact absurd h (by simp)
  | ok s =>
    obtain ⟨hseat, -, hstP, -, -, -⟩ := actionGate_ok hg
    rw [hg] at h
    simp only at h
    cases hcs : chk_sub t.highest_bet s.current_bet with
    | none => rw [hcs] at h; exact absurd h (by simp)
    | some callAmount =>
      rw [hcs] at h
      simp only at h
      cases hcb : chk_add s.current_bet (min callAmount s.chips) with
      | none => rw [hcb] at h; exact absurd h (by simp)
      | some newCb =>
        rw [hcb] at h
        simp only at h
        cases hcp : chk_add t.pot (min callAmount s.chips) with
        | none => rw [hcp] at h; exact absurd h (by simp)
        | some newPot =>
          rw [hcp] at h
          simp only at h
          obtain ⟨hnp, -⟩ := chk_add_some hcp
          obtain ⟨hst2, hpot2, hsum2⟩ := postAction_preserves h
          have hpot3 : t'.pot = newPot := hpot2
          have hsum := sumChips_set
            { s with
                chips := s.chips - min callAmount s.chips
                current_bet := newCb
                is_all_in :=
                  if min callAmount s.chips < callAmount then true
                  else s.is_all_in } hseat
          have hmin : min callAmount s.chips ≤ s.chips := Nat.min_le_right _ _
          refine ⟨?_, by rw [hst2, hstP]⟩
          rw [hpot3, hsum2]
          simp only at hsum
          omega

theorem awardFirst_sum (pot : Nat) :
    ∀ (l : List PlayerState) (l2 : List PlayerState),
      (∃ x ∈ l, (x.is_active && !x.is_folded) = true) →
      awardFirst pot l = some l2 →
      sumChips l2 = sumChips l + pot := by
  intro l
  induction l with
  | nil =>
    intro l2 hex
    simp at hex
  | cons x xs ih =>
    intro l2 hex h
    unfold awardFirst at h
    split at h
    · rename_i hx
      cases hca : chk_add x.chips pot with
      | none => rw [hca] at h; exact absurd h (by simp)
      | some c =>
        rw [hca] at h
        obtain ⟨hc, -⟩ := chk_add_some hca
        simp only [Option.some_inj] at h
        subst h
        simp only [sumChips, List.map_cons, List.sum_cons]
        omega
    · rename_i hx
      cases hr : awardFirst pot xs with
      | none => rw [hr] at h; exact absurd h (by simp)
      | some r =>
        rw [hr] at h
        simp only [Option.map_some', Option.some_inj] at h
        subst h
        have hex2 : ∃ y ∈ xs, (y.is_active && !y.is_folded) = true := by
          obtain ⟨y, hy, hya⟩ := hex
          rcases List.mem_cons.mp hy with rfl | hyxs
          · exact absurd hya (by simp [hx])
          · exact ⟨y, hyxs, hya⟩
        have := ih r hex2 hr
        simp only [sumChips, List.map_cons, List.sum_cons]
        unfold sumChips at this
        omega

theorem count_active_pos_exists {players : List Nat} {seats : List PlayerState}
    (h : 0 < count_active_players players seats) :
    ∃ x ∈ seats, (x.is_active && !x.is_folded) = true := by
  unfold count_active_players at h
  rw [List.countP_pos_iff] at h
  obtain ⟨pr, hmem, hpr⟩ := h
  refine ⟨pr.2, (List.of_mem_zip hmem).2, ?_⟩
  simp only [Bool.and_eq_true] at hpr ⊢
  exact ⟨hpr.2, hpr.1.2⟩

theorem fold_Q {actor idx : Nat} {t : Table} {seats : List PlayerState}
    {t' : Table} {s2 : List PlayerState}
    (h : fold actor idx t seats = .ok (t', s2)) :
    t'.pot + sumChips s2 =
      t.pot + sumChips seats +
        (if t'.status = TableStatus.Finished then t.pot else 0) := by
  unfold fold at h
  cases hg : actionGate actor idx t seats with
  | error e => rw [hg] at h; exact absurd h (by simp)
  | ok s =>
    obtain ⟨hseat, -, hstP, -, -, -⟩ := actionGate_ok hg
    rw [hg] at h
    simp only at h
    cases hadv : advance_to_next_player t with
    | none => rw [hadv] at h; exact absurd h (by simp)
    | some t1 =>
      rw [hadv] at h
      simp only at h
      obtain ⟨c, ht1⟩ := advance_shape hadv
      have ht1pot : t1.pot = t.pot := by rw [ht1]
      have ht1st : t1.status = t.status := by rw [ht1]
      have hsum1 := sumChips_set { s with is_folded := true } hseat
      simp only at hsum1
      split at h
      · rename_i hcount
        cases hga : awardFirst t1.pot (seats.set idx { s with is_folded := true }) with
        | none => rw [hga] at h; exact absurd h (by simp)
        | some seats2 =>
          rw [hga] at h
          simp only [Except.ok.injEq, Prod.mk.injEq] at h
          obtain ⟨h1, h2⟩ := h
          subst h2
          have hex := @count_active_pos_exists t1.players
            (seats.set idx { s with is_folded := true }) (by omega)
          have hsum2 := awardFirst_sum t1.pot _ seats2 hex hga
          have hstF : t'.status = TableStatus.Finished := by rw [← h1]
          have hpotF : t'.pot = t1.pot := by rw [← h1]
          rw [if_pos hstF, hpotF, ht1pot, hsum2, ht1pot]
          omega
      · cases hcrc : check_round_completion t1 (seats.set idx { s with is_folded := true }) with
        | none => rw [hcrc] at h; exact absurd h (by simp)
        | some r =>
          rw [hcrc] at h
          simp only [Except.ok.injEq] at h
          cases r with
          | mk rt rs =>
            cases h
            obtain ⟨hst2, hpot2, -, -, hsum2⟩ := crc_preserves hcrc
            have hstPl : t'.status = TableStatus.Playing := by
              rw [hst2, ht1st, hstP]
            rw [if_neg (by rw [hstPl]; intro hcon; cases hcon)]
            rw [hpot2, ht1pot, hsum2]
            omega

theorem addToSeats_sum (amt : Nat) :
    ∀ (idxs : List Nat) (seats out : List PlayerState),
      addToSeats amt idxs seats = some out →
      sumChips out = sumChips seats + amt * idxs.length := by
  intro idxs
  induction idxs with
  | nil =>
    intro seats out h
    simp only [addToSeats, Option.some_inj] at h
    subst h
    simp
  | cons i rest ih =>
    intro seats out h
    unfold addToSeats at h
    cases hsi : seats[i]? with
    | none => rw [hsi] at h; exact absurd h (by simp)
    | some si =>
      rw [hsi] at h
      simp only at h
      cases hca : chk_add si.chips amt with
      | none => rw [hca] at h; exact absurd h (by simp)
      | some c =>
        rw [hca] at h
        simp only at h
        obtain ⟨hc, -⟩ := chk_add_some hca
        have hrec := ih _ _ h
        have hset := sumChips_set { si with chips := c } hsi
        simp only at hset
        rw [hrec, List.length_cons, Nat.mul_succ]
        omega

theorem showdown_Q {t : Table} {seats : List PlayerState} {t' : Table}
    {s2 : List PlayerState} (h : showdown t seats = .ok (t', s2)) :
    t'.pot = t.pot ∧ t'.status = TableStatus.Finished ∧
      sumChips s2 = sumChips seats + t.pot := by
  unfold showdown at h
  split at h
  · exact absurd h (by simp)
  split at h
  · exact absurd h (by simp)
  generalize hL : (collectWinners t.community_cards (t.players.zip seats)).2 = L at h
  simp only at h
  split at h
  · exact absurd h (by simp)
  rename_i hL0
  cases hadd : addToSeats (t.pot / L.length) L seats with
  | none => rw [hadd] at h; exact absurd h (by simp)
  | some seats1 =>
    rw [hadd] at h
    simp only at h
    have hsum1 := addToSeats_sum (t.pot / L.length) L seats seats1 hadd
    have hdm := Nat.div_add_mod t.pot L.length
    have hmul : t.pot / L.length * L.length = L.length * (t.pot / L.length) :=
      Nat.mul_comm _ _
    split at h
    · cases hh : L.head? with
      | none => rw [hh] at h; exact absurd h (by simp)
      | some w0 =>
        rw [hh] at h
        simp only at h
        cases hsw : seats1[w0]? with
        | none => rw [hsw] at h; exact absurd h (by simp)
        | some sw =>
          rw [hsw] at h
          simp only at h
          cases hca : chk_add sw.chips (t.pot % L.length) with
          | none => rw [hca] at h; exact absurd h (by simp)
          | some c =>
            rw [hca] at h
            obtain ⟨hc, -⟩ := chk_add_some hca
            simp only [Except.ok.injEq, Prod.mk.injEq] at h
            obtain ⟨h1, h2⟩ := h
            subst h2
            have hset := sumChips_set { sw with chips := c } hsw
            simp only at hset
            refine ⟨by rw [← h1], by rw [← h1], ?_⟩
            omega
    · rename_i hrem
      simp only [Except.ok.injEq, Prod.mk.injEq] at h
      obtain ⟨h1, h2⟩ := h
      subst h2
      refine ⟨by rw [← h1], by rw [← h1], ?_⟩
      omega

/-! ## Claim C1 — chip conservation -/

/-- C1 as amended: for every accepted action on a Playing table,
`pot + Σ seat.chips` is unchanged by `bet`, `check`, `call` and by a `fold`
that leaves more than one contender; a settling action (fold-to-one-winner or
showdown) credits exactly the pot amount to winner chip balances but leaves
the `pot` field at its prior value (it is zeroed only by `reset_table`), so
`pot + Σ seat.chips` increases by exactly the old pot precisely when the
action finishes the game.  Equivalently: for every accepted action,
`pot' + Σ chips' = pot + Σ chips + (if status' = Finished then pot else 0)`. -/
theorem claim_C1_conservation (g : GameState) (a : GameAction) (g2 : GameState)
    (h : applyAction g a = .ok g2) :
    g2.table.pot + sumChips g2.seats =
      g.table.pot + sumChips g.seats +
        (if g2.table.status = TableStatus.Finished then g.table.pot else 0) := by
  cases a with
  | bet actor idx amount =>
    obtain ⟨⟨t', s2⟩, hok, hmap⟩ := except_map_ok h
    obtain ⟨hq, hstP⟩ := bet_Q hok
    have hg2 : g2 = ⟨t', s2⟩ := hmap.symm
    subst hg2
    rw [if_neg (by rw [hstP]; intro hcon; cases hcon)]
    simpa using hq
  | check actor idx =>
    obtain ⟨⟨t', s2⟩, hok, hmap⟩ := except_map_ok h
    obtain ⟨hq, hstP⟩ := check_Q hok
    have hg2 : g2 = ⟨t', s2⟩ := hmap.symm
    subst hg2
    rw [if_neg (by rw [hstP]; intro hcon; cases hcon)]
    simpa using hq
  | call actor idx =>
    obtain ⟨⟨t', s2⟩, hok, hmap⟩ := except_map_ok h
    obtain ⟨hq, hstP⟩ := call_Q hok
    have hg2 : g2 = ⟨t', s2⟩ := hmap.symm
    subst hg2
    rw [if_neg (by rw [hstP]; intro hcon; cases hcon)]
    simpa using hq
  | fold actor idx =>
    obtain ⟨⟨t', s2⟩, hok, hmap⟩ := except_map_ok h
    have hq := fold_Q hok
    have hg2 : g2 = ⟨t', s2⟩ := hmap.symm
    subst hg2
    simpa using hq
  | showdown =>
    obtain ⟨⟨t', s2⟩, hok, hmap⟩ := except_map_ok h
    obtain ⟨hpot, hstF, hsum⟩ := showdown_Q hok
    have hg2 : g2 = ⟨t', s2⟩ := hmap.symm
    subst hg2
    rw [if_pos (by simpa using hstF)]
    simp only
    rw [hpot, hsum]
    omega

/-- Counterexample to C1 as stated: the fold-to-one-winner settlement credits
the winner with the whole pot but does not zero the `pot` field, so
`pot + Σ seat.chips` jumps from `10 + 12 = 22` to `10 + 22 = 32` across one
accepted `fold` — the quantity is not invariant across settlement. -/
theorem claim_C1_counterexample :
    let g : GameState :=
      { table :=
          { host := 1, buy_in := 100, small_blind := 0, big_blind := 0,
            max_players := 3, status := TableStatus.Playing, pot := 10,
            players := [1, 0, 2], player_count := 2, current_player_index := 0,
            dealer_index := 0, round := Round.PreFlop, highest_bet := 0,
            community_cards := [0, 0, 0, 0, 0] },
        seats :=
          [{ player := 1, chips := 5, is_active := true, is_folded := false,
             is_all_in := false, current_bet := 0, cards := (0, 0) },
           { player := 0, chips := 0, is_active := false, is_folded := false,
             is_all_in := false, current_bet := 0, cards := (0, 0) },
           { player := 2, chips := 7, is_active := true, is_folded := false,
             is_all_in := false, current_bet := 0, cards := (0, 0) }] }
    ∃ g2, applyAction g (GameAction.fold 1 0) = .ok g2 ∧
      g2.table.pot + sumChips g2.seats ≠ g.table.pot + sumChips g.seats := by
  intro g
  refine ⟨
    { table :=
        { host := 1, buy_in := 100, small_blind := 0, big_blind := 0,
          max_players := 3, status := TableStatus.Finished, pot := 10,
          players := [1, 0, 2], player_count := 2, current_player_index := 0,
          dealer_index := 0, round := Round.PreFlop, highest_bet := 0,
          community_cards := [0, 0, 0, 0, 0] },
      seats :=
        [{ player := 1, chips := 5, is_active := true, is_folded := true,
           is_all_in := false, current_bet := 0, cards := (0, 0) },
         { player := 0, chips := 0, is_active := false, is_folded := false,
           is_all_in := false, current_bet := 0, cards := (0, 0) },
         { player := 2, chips := 17, is_active := true, is_folded := false,
           is_all_in := false, current_bet := 0, cards := (0, 0) }] },
    by decide, by decide⟩

/-- Witness for C1 (amended): a concrete accepted `check` keeps
`pot + Σ chips` exactly unchanged (the action does not finish the game, so
the correction term is 0). -/
theorem claim_C1_witness :
    let g : GameState :=
      { table :=
          { host := 1, buy_in := 100, small_blind := 5, big_blind := 10,
            max_players := 2, status := TableStatus.Playing, pot := 20,
            players := [1, 2], player_count := 2, current_player_index := 0,
            dealer_index := 0, round := Round.Flop, highest_bet := 0,
            community_cards := [0, 0, 0, 0, 0] },
        seats :=
          [{ player := 1, chips := 90, is_active := true, is_folded := false,
             is_all_in := false, current_bet := 0, cards := (0, 1) },
           { player := 2, chips := 90, is_active := true, is_folded := false,
             is_all_in := false, current_bet := 0, cards := (2, 3) }] }
    ∃ g2, applyAction g (GameAction.check 1 0) = .ok g2 ∧
      g2.table.pot + sumChips g2.seats =
        g.table.pot + sumChips g.seats +
          (if g2.table.status = TableStatus.Finished then g.table.pot else 0) := by
  intro g
  refine ⟨
    { table :=
        { host := 1, buy_in := 100, small_blind := 5, big_blind := 10,
          max_players := 2, status := TableStatus.Playing, pot := 20,
          players := [1, 2], player_count := 2, current_player_index := 1,
          dealer_index := 0, round := Round.Turn, highest_bet := 0,
          community_cards := [0, 0, 0, 0, 0] },
      seats :=
        [{ player := 1, chips := 90, is_active := true, is_folded := false,
           is_all_in := false, current_bet := 0, cards := (0, 1) },
         { player := 2, chips := 90, is_active := true, is_folded := false,
           is_all_in := false, current_bet := 0, cards := (2, 3) }] },
    ?_, ?_⟩
  · decide
  · exact claim_C1_conservation g (GameAction.check 1 0) _ (by decide)
